import Mathlib

/-!
Verification of the Minesweeper rules engine (`src/Minesweeper.cpp`).

The C++ classes `CMinesweeperCell` and `CMinesweeperGame` are embedded
shallowly: a cell is a record of its four mutable fields, a game is a record
of the game fields, and every member function becomes a Lean function on
these records.  In-place mutation plus C++ exceptions (the `internal_check`
macro throws `logic_error`) is modelled by returning the state as mutated up
to the point of the throw together with an `Option Err`: `(g, none)` is a
normal return, `(g, some e)` means the exception `e` was raised with the
object left in state `g`.

The C++ `unordered_set<size_t>` (used both for the modified-cell tracking
set and for the flood-fill worklist) is modelled as a duplicate-free
`List Nat` with insert-if-absent at the back and removal at the front; the
iteration order of the C++ container is unspecified, the model fixes one
order.  `random_device` draws in `plantBombs` are modelled by an explicit
list of indices consumed left to right; the C++ loop can draw forever, so
the model returns `none` when the list is exhausted before enough bombs are
planted.  The `openNeighbors` while-loop has no termination guarantee, so it
is given explicit fuel and returns `none` when the fuel runs out.
-/

set_option maxRecDepth 100000

namespace Minesweeper

/-- `TMinesweeperCellLabel` from `Minesweeper.h`. -/
inductive TMinesweeperCellLabel where
  | MCL_None
  | MCL_Bomb
  | MCL_Question
deriving DecidableEq, Repr, Inhabited

/-- `TMinesweeperGameState` from `Minesweeper.h`. -/
inductive TMinesweeperGameState where
  | MGS_Active
  | MGS_Failure
  | MGS_Success
deriving DecidableEq, Repr, Inhabited

/-- The single error kind of the implementation: `internal_check` throws
`logic_error("internal program error at ...")`. -/
inductive Err where
  | internalError
deriving DecidableEq, Repr, Inhabited

instance {ε α : Type} [DecidableEq ε] [DecidableEq α] : DecidableEq (Except ε α) := fun a b =>
  match a, b with
  | .ok x, .ok y =>
    if h : x = y then isTrue (by rw [h]) else isFalse (by simp [h])
  | .error e, .error f =>
    if h : e = f then isTrue (by rw [h]) else isFalse (by simp [h])
  | .ok _, .error _ => isFalse (by simp)
  | .error _, .ok _ => isFalse (by simp)

open TMinesweeperCellLabel TMinesweeperGameState

/-- The mutable fields of `CMinesweeperCell`.  The `index` field of the C++
cell is implicit: it always equals the cell's position in the game's cell
vector, so cells are addressed by position.  Constructor defaults mirror the
C++ constructor (`isBomb(false), isOpened(false), label(MCL_None),
numberOfNeighborBombs(0)`). -/
structure Cell where
  isBomb : Bool := false
  isOpened : Bool := false
  label : TMinesweeperCellLabel := MCL_None
  numberOfNeighborBombs : Nat := 0
deriving DecidableEq, Repr, Inhabited

/-- The fields of `CMinesweeperGame`. -/
structure Game where
  state : TMinesweeperGameState
  rows : Nat
  columns : Nat
  bombs : Nat
  cells : List Cell
  numberOfOpenedCells : Nat
  modifiedCellIndices : List Nat
deriving DecidableEq, Repr, Inhabited

/-- `cells[i]`; all call sites in the C++ code guarantee `i` is in range. -/
def cellAt (g : Game) (i : Nat) : Cell := g.cells.getD i default

/-- `unordered_set::insert`: add `i` if absent (model order: at the back). -/
def insertIdx (l : List Nat) (i : Nat) : List Nat :=
  if i ∈ l then l else l ++ [i]

/-- `CMinesweeperGame::OnModified` (reached from a cell's `onModified`):
checks the game is active and the index in range, then records the index in
the modified set.  The `cell != nullptr` and `cells[index].get() == cell`
identity checks always hold in the model, where a cell is addressed by its
position. -/
def OnModified (g : Game) (i : Nat) : Game × Option Err :=
  if g.state ≠ MGS_Active then (g, some .internalError)
  else if g.cells.length ≤ i then (g, some .internalError)
  else ({ g with modifiedCellIndices := insertIdx g.modifiedCellIndices i }, none)

/-- `CMinesweeperCell::InternalOpen` on the cell at index `i`: sets
`isOpened` and fires `onModified` only on the false-to-true transition. -/
def internalOpenAt (g : Game) (i : Nat) : Game × Option Err :=
  let c := cellAt g i
  if c.isOpened then (g, none)
  else OnModified { g with cells := g.cells.set i { c with isOpened := true } } i

/-- `CMinesweeperCell::IsBomb`: `internal_check(IsOpened())`. -/
def cellIsBomb (c : Cell) : Except Err Bool :=
  if ¬c.isOpened then .error .internalError else .ok c.isBomb

/-- `CMinesweeperCell::NumberOfNeighborBombs`:
`internal_check(!IsBomb())` — note `IsBomb()` itself throws on a closed
cell, and that exception propagates. -/
def cellNumberOfNeighborBombs (c : Cell) : Except Err Nat :=
  match cellIsBomb c with
  | .error e => .error e
  | .ok b => if b then .error .internalError else .ok c.numberOfNeighborBombs

/-- `CMinesweeperCell::SetLabel` on the cell at index `i` (label changes are
routed to the owning game's `OnModified`).  The label field is written
before `onModified` runs, so if the game is no longer active the new label
persists while the exception is raised. -/
def SetLabel (g : Game) (i : Nat) (newLabel : TMinesweeperCellLabel) : Game × Option Err :=
  let c := cellAt g i
  if c.isOpened then (g, some .internalError)
  else if c.label ≠ newLabel then
    OnModified { g with cells := g.cells.set i { c with label := newLabel } } i
  else (g, none)

/-- `CMinesweeperGame::findNeighbors`, returning indices (the C++ function
returns cell pointers and callers only use `Index()`).  Neighbor order is
the C++ push order.  Subtractions are guarded exactly as in the source, so
`Nat` subtraction never truncates where the C++ `size_t` arithmetic does not
wrap. -/
def findNeighbors (g : Game) (index : Nat) : List Nat :=
  let row := index / g.columns
  let column := index % g.columns
  let top := 0 < row
  let bottom := row < g.rows - 1
  let left := 0 < column
  let right := column < g.columns - 1
  (if top then
      (if left then [index - g.columns - 1] else []) ++ [index - g.columns] ++
        (if right then [index - g.columns + 1] else [])
    else []) ++
  (if left then [index - 1] else []) ++
  (if right then [index + 1] else []) ++
  (if bottom then
      (if left then [index + g.columns - 1] else []) ++ [index + g.columns] ++
        (if right then [index + g.columns + 1] else [])
    else [])

/-- `CMinesweeperGame::CalculateNumberOfNeighborCellsLabeledAsBombs`. -/
def CalculateNumberOfNeighborCellsLabeledAsBombs (g : Game) (index : Nat) : Nat :=
  (findNeighbors g index).foldl
    (fun n i =>
      let c := cellAt g i
      if ¬c.isOpened ∧ c.label = MCL_Bomb then n + 1 else n) 0

/-- `CMinesweeperCell::SetIsBomb(true)`: also zeroes the neighbor count. -/
def cellSetIsBomb (c : Cell) : Cell :=
  { c with isBomb := true, numberOfNeighborBombs := 0 }

/-- `CMinesweeperCell::SetNumberOfNeighborBombs`: note it also clears the
bomb flag. -/
def cellSetNumberOfNeighborBombs (c : Cell) (n : Nat) : Cell :=
  { c with isBomb := false, numberOfNeighborBombs := n }

/-- `CMinesweeperGame::plantBomb`: marks the cell as a bomb, then calls
`SetNumberOfNeighborBombs(old + 1)` on every neighbor — which as a side
effect clears each neighbor's bomb flag.  The `internal_check(!GetIsBomb())`
holds at the single call site (`plantBombs` only picks non-bomb cells) and
the `!IsOpened()` checks hold because planting happens on a fresh grid. -/
def plantBomb (g : Game) (index : Nat) : Game :=
  let g1 := { g with cells := g.cells.set index (cellSetIsBomb (cellAt g index)) }
  (findNeighbors g1 index).foldl
    (fun acc i =>
      { acc with
        cells := acc.cells.set i
          (cellSetNumberOfNeighborBombs (cellAt acc i)
            ((cellAt acc i).numberOfNeighborBombs + 1)) })
    g1

/-- The rejection-sampling loop of `CMinesweeperGame::plantBombs`, with the
stream of `randomGenerator` draws made explicit.  `need` is the number of
bombs still to be planted; a draw targeting a cell currently flagged as a
bomb is rejected.  The C++ distribution only produces in-range indices, so
an out-of-range list element is rejected as well.  Returns `none` if the
list is exhausted early (the C++ loop would keep drawing). -/
def plantBombsAux : Game → Nat → List Nat → Option Game
  | g, 0, _ => some g
  | _, _ + 1, [] => none
  | g, need + 1, r :: rest =>
    if r < g.cells.length ∧ (cellAt g r).isBomb = false then
      plantBombsAux (plantBomb g r) need rest
    else
      plantBombsAux g (need + 1) rest

/-- `CMinesweeperGame::plantBombs`. -/
def plantBombs (g : Game) (randoms : List Nat) : Option Game :=
  plantBombsAux g g.bombs randoms

/-- `CMinesweeperGame::reset`. -/
def reset (g : Game) : Game :=
  { g with state := MGS_Active, modifiedCellIndices := [], numberOfOpenedCells := 0 }

/-- `CMinesweeperGame::NewGame()` (parameterless overload): reset, allocate
a fresh grid of `rows * columns` default cells, plant bombs. -/
def NewGameCurrent (g : Game) (randoms : List Nat) : Option Game :=
  let g1 := reset g
  let g2 := { g1 with cells := List.replicate (g1.rows * g1.columns) {} }
  plantBombs g2 randoms

/-- Parameter validation of `CMinesweeperGame::NewGame(rows, columns,
bombs)`.  The C++ bound is `static_cast<size_t>(0.93 * rows * columns)`;
over the whole validated range (`rows ≤ 24`, `columns ≤ 30`) the
double-precision product truncates to `93 * rows * columns / 100`. -/
def validParams (rows columns bombs : Nat) : Prop :=
  9 ≤ rows ∧ rows ≤ 24 ∧ 9 ≤ columns ∧ columns ≤ 30 ∧
    10 ≤ bombs ∧ bombs ≤ 93 * rows * columns / 100

instance (r c b : Nat) : Decidable (validParams r c b) := by
  unfold validParams; infer_instance

/-- `CMinesweeperGame::NewGame(rows, columns, bombs)`. -/
def NewGameWithParams (g : Game) (rows columns bombs : Nat) (randoms : List Nat) :
    Except Err (Option Game) :=
  if validParams rows columns bombs then
    .ok (NewGameCurrent { g with rows := rows, columns := columns, bombs := bombs } randoms)
  else
    .error .internalError

/-- The state of a `CMinesweeperGame` right after its constructor. -/
def initialGame : Game :=
  { state := MGS_Failure, rows := 0, columns := 0, bombs := 0, cells := [],
    numberOfOpenedCells := 0, modifiedCellIndices := [] }

/-- `Minesweeper::CreateGame`. -/
def CreateGame (rows columns bombs : Nat) (randoms : List Nat) :
    Except Err (Option Game) :=
  NewGameWithParams initialGame rows columns bombs randoms

/-- `CMinesweeperCell::Close` on the cell at index `i`: closes, clears the
label, and unconditionally fires `onModified`. -/
def closeAt (g : Game) (i : Nat) : Game × Option Err :=
  let c := cellAt g i
  OnModified { g with cells := g.cells.set i { c with isOpened := false, label := MCL_None } } i

/-- The `for` loop of `CMinesweeperGame::RestartGame`, closing the cells at
the given indices in order and aborting on an exception. -/
def closeCellsList : Game → List Nat → Game × Option Err
  | g, [] => (g, none)
  | g, i :: rest =>
    match closeAt g i with
    | (g1, some e) => (g1, some e)
    | (g1, none) => closeCellsList g1 rest

/-- `CMinesweeperGame::RestartGame`. -/
def RestartGame (g : Game) : Game × Option Err :=
  let g1 := reset g
  closeCellsList g1 (List.range g1.cells.length)

/-- `CMinesweeperGame::ModifiedCells`: maps each recorded index to its
`(row, column)` pair and clears the tracking set.  Returns the vector
together with the game after the drain. -/
def ModifiedCells (g : Game) : List (Nat × Nat) × Game :=
  (g.modifiedCellIndices.map (fun i => (i / g.columns, i % g.columns)),
    { g with modifiedCellIndices := [] })

/-- The `for` loop of `CMinesweeperGame::openBombs` over the given indices:
`InternalOpen` every bomb cell. -/
def openBombsList : Game → List Nat → Game × Option Err
  | g, [] => (g, none)
  | g, i :: rest =>
    let step := if (cellAt g i).isBomb then internalOpenAt g i else (g, none)
    match step with
    | (g1, some e) => (g1, some e)
    | (g1, none) => openBombsList g1 rest

/-- `CMinesweeperGame::openBombs`: opens every bomb on the board, then sets
the state to `MGS_Failure`. -/
def openBombs (g : Game) : Game × Option Err :=
  match openBombsList g (List.range g.cells.length) with
  | (g1, some e) => (g1, some e)
  | (g1, none) => ({ g1 with state := MGS_Failure }, none)

/-- `CMinesweeperGame::open`: the Bool is the C++ return value (`false`
exactly when a bomb was just revealed).  A closed labeled cell is left
untouched and the call reports success. -/
def openCell (g : Game) (i : Nat) : (Game × Option Err) × Bool :=
  let c := cellAt g i
  if ¬c.isOpened ∧ c.label = MCL_None then
    match internalOpenAt g i with
    | (g1, some e) => ((g1, some e), true)
    | (g1, none) =>
      if c.isBomb then (openBombs g1, false)
      else (({ g1 with numberOfOpenedCells := g1.numberOfOpenedCells + 1 }, none), true)
  else ((g, none), true)

/-- `CMinesweeperGame::hasSuccess`: the Bool is the C++ return value. -/
def hasSuccess (g : Game) : (Game × Option Err) × Bool :=
  if g.state ≠ MGS_Active then ((g, some .internalError), false)
  else
    let numberOfSafeCells := g.cells.length - g.bombs
    if numberOfSafeCells < g.numberOfOpenedCells then ((g, some .internalError), false)
    else if g.numberOfOpenedCells = numberOfSafeCells then
      (({ g with state := MGS_Success }, none), true)
    else ((g, none), false)

/-- The inner `for` loop of `CMinesweeperGame::openNeighbors`, processing
the neighbor list of the current worklist item.  `.inl r` means the whole
`openNeighbors` call returns immediately with result `r` (a bomb was hit, or
an exception propagates); `.inr (g, wl)` continues the while-loop. -/
def processNeighbors : Game → List Nat → List Nat → (Game × Option Err) ⊕ (Game × List Nat)
  | g, wl, [] => .inr (g, wl)
  | g, wl, n :: rest =>
    if (cellAt g n).isOpened then processNeighbors g wl rest
    else
      match openCell g n with
      | ((g1, some e), _) => .inl (g1, some e)
      | ((g1, none), false) => .inl (g1, none)
      | ((g1, none), true) =>
        let wl1 := if (cellAt g1 n).numberOfNeighborBombs = 0 then insertIdx wl n else wl
        processNeighbors g1 wl1 rest

/-- One iteration of the `openNeighbors` while-loop: pop the front worklist
item and process its neighbors; `.inl` is a return from `openNeighbors`. -/
def openNeighborsStep (g : Game) (wl : List Nat) : (Game × Option Err) ⊕ (Game × List Nat) :=
  match wl with
  | [] => .inl (g, none)
  | current :: rest => processNeighbors g rest (findNeighbors g current)

/-- The `openNeighbors` while-loop with fuel; `none` means the fuel ran out
(the C++ loop has no termination guarantee). -/
def openNeighborsLoop : Nat → Game → List Nat → Option (Game × Option Err)
  | 0, _, _ => none
  | fuel + 1, g, wl =>
    match openNeighborsStep g wl with
    | .inl r => some r
    | .inr (g1, wl1) => openNeighborsLoop fuel g1 wl1

/-- `CMinesweeperGame::openNeighbors`: the worklist starts as `{index}`. -/
def openNeighbors (fuel : Nat) (g : Game) (index : Nat) : Option (Game × Option Err) :=
  openNeighborsLoop fuel g [index]

/-- Pure iteration of `openNeighborsStep`, used to reason about the loop:
`some s` after `n` steps means the while-loop ran `n` full iterations
without returning. -/
def openNeighborsIter : Nat → Game × List Nat → Option (Game × List Nat)
  | 0, s => some s
  | n + 1, s =>
    match openNeighborsStep s.1 s.2 with
    | .inl _ => none
    | .inr s1 => openNeighborsIter n s1

/-- `CMinesweeperGame::OnOpen` (reached from `CMinesweeperCell::Open`), with
fuel for the flood-fill.  The `cell != nullptr` and identity checks always
hold in the model. -/
def OnOpen (fuel : Nat) (g : Game) (index : Nat) : Option (Game × Option Err) :=
  if g.state ≠ MGS_Active then some (g, some .internalError)
  else if g.cells.length ≤ index then some (g, some .internalError)
  else
    let c := cellAt g index
    if c.isOpened then
      if c.numberOfNeighborBombs = CalculateNumberOfNeighborCellsLabeledAsBombs g index then
        openNeighbors fuel g index
      else some (g, none)
    else
      match openCell g index with
      | ((g1, some e), _) => some (g1, some e)
      | ((g1, none), false) => some (g1, none)
      | ((g1, none), true) =>
        match hasSuccess g1 with
        | ((g2, some e), _) => some (g2, some e)
        | ((g2, none), won) =>
          if ¬won ∧ (cellAt g2 index).numberOfNeighborBombs = 0 then
            openNeighbors fuel g2 index
          else some (g2, none)

/-! ### Specification-side definitions and concrete scenarios -/

/-- Number of cells on the board whose bomb flag is set. -/
def countBombs (g : Game) : Nat := (g.cells.filter (fun c => c.isBomb)).length

/-- Specification-side: the number of bomb cells among the (up to 8)
grid-adjacent neighbors of cell `i`. -/
def actualNeighborBombs (g : Game) (i : Nat) : Nat :=
  ((findNeighbors g i).filter (fun j => (cellAt g j).isBomb)).length

/-- The game produced by a successful `CreateGame` call (callers below only
use it where the call does succeed). -/
def createdGame (rows columns bombs : Nat) (randoms : List Nat) : Game :=
  match CreateGame rows columns bombs randoms with
  | .ok (some g) => g
  | _ => default

/-- One public `Open` call on cell `i` with flood-fill fuel 1000, keeping
the resulting game (scenarios below only use it where the call returns). -/
def applyOpen (i : Nat) (g : Game) : Game :=
  ((OnOpen 1000 g i).getD (g, some .internalError)).1

/-- A sequence of public `Open` calls. -/
def applyOpens (l : List Nat) (g : Game) : Game :=
  l.foldl (fun g i => applyOpen i g) g

/-- One public `SetLabel` call on cell `i`, keeping the resulting game. -/
def applyLabel (i : Nat) (l : TMinesweeperCellLabel) (g : Game) : Game :=
  (SetLabel g i l).1

/-- A 9 x 9, 10-mine board planted from pairwise non-adjacent draws
(rows 0 and 2, even columns): all ten mines survive planting, every stored
neighbor count is exact, and rows 4-8 are a zero-count region. -/
def crossLayout : Game :=
  createdGame 9 9 10 [0, 2, 4, 6, 8, 18, 20, 22, 24, 26]

/-- C2 scenario: label the adjacent zero-count cells 45 and 46 (row 5,
columns 0 and 1) as Question. -/
def c2Start : Game := applyLabel 46 MCL_Question (applyLabel 45 MCL_Question crossLayout)

/-- The game state passed to `openNeighbors` when cell 47 (row 5, column 2,
zero-count, unlabeled) is opened on `c2Start`: after `open(47)` and the
`hasSuccess` check. -/
def c2Flood : Game := (hasSuccess ((openCell c2Start 47).1.1)).1.1

/-- The worklist state entering the `openNeighbors` loop for seed 47. -/
def c2s0 : Game × List Nat := (c2Flood, [47])

/-- The loop state after 100 iterations: the flood has finished opening and
the worklist alternates between the two labeled cells 45 and 46 forever. -/
def c2Cycle : Game × List Nat := (openNeighborsIter 100 c2s0).getD c2s0

/-- C3 scenario: label the zero-count cell 47 itself as Question. -/
def c3Labeled : Game := applyLabel 47 MCL_Question crossLayout

/-- The game after calling `Open` on the Question-labeled cell 47. -/
def c3Result : Game := applyOpen 47 c3Labeled

/-- C4 scenario: flood from corner 80, open every remaining safe cell except
cell 9, then label the mines 18 and 20: cell 19 is opened with stored count
2 and exactly 2 closed Mine-labeled neighbors, so `Open` on it chords. -/
def c4Pre : Game :=
  applyLabel 20 MCL_Bomb (applyLabel 18 MCL_Bomb
    (applyOpens [80, 1, 3, 5, 7, 10, 11, 12, 13, 14, 15, 16, 17, 19, 21, 23, 25] crossLayout))

/-- The result of the chord `Open` call on cell 19. -/
def c4Result : Game × Option Err := (OnOpen 1000 c4Pre 19).getD (c4Pre, some .internalError)

/-- C6 scenario: the draws 0,1,2,3 are pairwise adjacent, so planting leaves
only mine 3 of the first four; the board ends with 7 actual mines
(3, 54, 56, 58, 60, 62, 78) although `bombs = 10`.  Cell 80 is a zero-count
pocket whose three neighbors 70, 71, 79 have nonzero counts. -/
def c6Start : Game :=
  createdGame 9 9 10 [0, 1, 2, 3, 54, 56, 58, 60, 62, 78]

/-- Open all 70 safe cells except the pocket `{80}` and its border
`{70, 71, 79}`: `numberOfOpenedCells` reaches 70 = (81 - 10) - 1 while the
game is still Active. -/
def c6Pre : Game :=
  applyOpens [18, 0, 1, 2, 55, 57, 59, 61, 63, 64, 65, 66, 67, 68, 69, 72] c6Start

/-- The result of the `Open` call on the pocket seed 80. -/
def c6Result : Game × Option Err := (OnOpen 1000 c6Pre 80).getD (c6Pre, some .internalError)

/-- Witness game for C4: one closed safe cell (index 0) and one mine;
opening cell 0 reaches `openedCount = totalCells - mines`. -/
def gW4 : Game :=
  { state := MGS_Active, rows := 1, columns := 2, bombs := 1,
    cells := [{}, { isBomb := true }], numberOfOpenedCells := 0, modifiedCellIndices := [] }

/-- Witness game for C5: a closed unlabeled mine at index 0. -/
def gW5 : Game :=
  { state := MGS_Active, rows := 1, columns := 2, bombs := 1,
    cells := [{ isBomb := true }, {}], numberOfOpenedCells := 0, modifiedCellIndices := [] }

/-- Witness game for C6: a 2 x 2 board, no mines, cell 0 zero-count with
nonzero-count neighbors 1, 2, 3; everything closed and unlabeled. -/
def gW6 : Game :=
  { state := MGS_Active, rows := 2, columns := 2, bombs := 0,
    cells := [{}, { numberOfNeighborBombs := 1 }, { numberOfNeighborBombs := 1 },
      { numberOfNeighborBombs := 1 }],
    numberOfOpenedCells := 0, modifiedCellIndices := [] }

/-- Witness game for C7: three recorded modified indices. -/
def gW7 : Game :=
  { state := MGS_Active, rows := 9, columns := 9, bombs := 10,
    cells := List.replicate 81 {}, numberOfOpenedCells := 0,
    modifiedCellIndices := [0, 10, 17] }

/-- Witness game for C8: a 2 x 2 board with a mine, an opened cell and a
labeled cell. -/
def gW8 : Game :=
  { state := MGS_Success, rows := 2, columns := 2, bombs := 1,
    cells := [{ isBomb := true }, { isOpened := true, numberOfNeighborBombs := 1 },
      { label := MCL_Bomb, numberOfNeighborBombs := 1 }, { isOpened := true, numberOfNeighborBombs := 1 }],
    numberOfOpenedCells := 2, modifiedCellIndices := [3] }

/-- Witness game for C10: a finished (Failure) game with a closed cell. -/
def gW10 : Game :=
  { state := MGS_Failure, rows := 1, columns := 1, bombs := 0,
    cells := [{}], numberOfOpenedCells := 0, modifiedCellIndices := [] }

/-- `gW10` with the label of cell 0 rewritten to Mine. -/
def gW10m : Game :=
  { gW10 with cells := gW10.cells.set 0 { cellAt gW10 0 with label := MCL_Bomb } }

/-- Specification-side: the cells the flood-fill from seed `s` is meant to
open — the seed, and every cell reachable from it by repeatedly stepping
from a cell with stored neighbor count 0 to one of its grid neighbors.
For a seed with count 0 this is exactly the seed's connected
zero-neighbor-count region together with its immediate border of
nonzero-count cells. -/
inductive ReachOpen (g : Game) (s : Nat) : Nat → Prop where
  | seed : ReachOpen g s s
  | step {i j : Nat} : ReachOpen g s i → (cellAt g i).numberOfNeighborBombs = 0 →
      j ∈ findNeighbors g i → ReachOpen g s j

/-- The number of still-closed cells of the first `n` indices; the
flood-fill termination measure. -/
def closedCount (gc : Game) (n : Nat) : Nat :=
  ((Finset.range n).filter (fun j => (cellAt gc j).isOpened = false)).card

/-- Invariant of the `openNeighbors` while-loop relating the current loop
state `(gc, wl)` to the game `g` at the start of the `Open` call with seed
`s`: the grid shape, state, and every per-cell field except `isOpened` are
unchanged; every opened cell was opened initially or belongs to the flood
region; and every worklist entry is an already-opened zero-count in-range
cell of the region. -/
def FloodInv (g : Game) (s : Nat) (gc : Game) (wl : List Nat) : Prop :=
  gc.rows = g.rows ∧ gc.columns = g.columns ∧ gc.cells.length = g.cells.length ∧
  gc.state = MGS_Active ∧
  (∀ j, (cellAt gc j).isBomb = (cellAt g j).isBomb ∧
        (cellAt gc j).numberOfNeighborBombs = (cellAt g j).numberOfNeighborBombs ∧
        (cellAt gc j).label = (cellAt g j).label) ∧
  (∀ j, (cellAt gc j).isOpened = true → (cellAt g j).isOpened = true ∨ ReachOpen g s j) ∧
  (∀ i ∈ wl, ReachOpen g s i ∧ (cellAt g i).numberOfNeighborBombs = 0 ∧
      (cellAt gc i).isOpened = true ∧ i < g.cells.length)

/-- Completeness part of the flood-fill invariant: every zero-count region
cell that is opened and fully processed (neither still queued in `wl` nor
the item being processed, listed in `ex`) already has all its neighbors
opened. -/
def FloodDone (g : Game) (s : Nat) (gc : Game) (wl : List Nat) (ex : List Nat) : Prop :=
  ∀ i, ReachOpen g s i → (cellAt g i).numberOfNeighborBombs = 0 →
    (cellAt gc i).isOpened = true → i ∉ wl → i ∉ ex →
    ∀ j ∈ findNeighbors g i, (cellAt gc j).isOpened = true

/-! ### Basic lemmas about the embedding -/

theorem getD_set_self : ∀ (l : List Cell) (i : Nat) (c : Cell), i < l.length →
    (l.set i c).getD i default = c
  | _ :: _, 0, _, _ => rfl
  | _ :: l, i + 1, c, h => getD_set_self l i c (Nat.lt_of_succ_lt_succ h)

theorem getD_set_ne : ∀ (l : List Cell) (i j : Nat) (c : Cell), i ≠ j →
    (l.set i c).getD j default = l.getD j default
  | [], _, _, _, _ => by simp
  | _ :: _, 0, 0, _, h => absurd rfl h
  | _ :: _, 0, _ + 1, _, _ => rfl
  | _ :: _, _ + 1, 0, _, _ => rfl
  | _ :: l, i + 1, j + 1, c, h => getD_set_ne l i j c (fun hij => h (by omega))

theorem cellAt_set_self (g : Game) (i : Nat) (c : Cell) (h : i < g.cells.length) :
    cellAt { g with cells := g.cells.set i c } i = c :=
  getD_set_self g.cells i c h

theorem cellAt_set_ne (g : Game) (i j : Nat) (c : Cell) (h : i ≠ j) :
    cellAt { g with cells := g.cells.set i c } j = cellAt g j :=
  getD_set_ne g.cells i j c h

/-! ### Iteration lemmas for the `openNeighbors` while-loop -/

theorem openNeighborsIter_add (a b : Nat) (s : Game × List Nat) :
    openNeighborsIter (a + b) s = (openNeighborsIter a s).bind (openNeighborsIter b) := by
  induction a generalizing s with
  | zero => simp [openNeighborsIter]
  | succ n ih =>
    rw [Nat.succ_add]
    cases hstep : openNeighborsStep s.1 s.2 with
    | inl r => simp only [openNeighborsIter, hstep, Option.none_bind]
    | inr s1 => simp only [openNeighborsIter, hstep]; exact ih s1

theorem openNeighborsLoop_unroll (n : Nat) (s s1 : Game × List Nat)
    (h : openNeighborsIter n s = some s1) (fuel : Nat) :
    openNeighborsLoop (n + fuel) s.1 s.2 = openNeighborsLoop fuel s1.1 s1.2 := by
  induction n generalizing s with
  | zero => simp [openNeighborsIter] at h; rw [← h]; simp
  | succ n ih =>
    rw [Nat.succ_add]
    cases hstep : openNeighborsStep s.1 s.2 with
    | inl r => simp only [openNeighborsIter, hstep] at h; simp at h
    | inr s2 =>
      simp only [openNeighborsIter, hstep] at h
      have hl : openNeighborsLoop (n + fuel + 1) s.1 s.2 =
          openNeighborsLoop (n + fuel) s2.1 s2.2 := by
        simp only [openNeighborsLoop, hstep]
      rw [hl]; exact ih s2 h

/-- If the loop state ever revisits itself, every prefix of the run keeps
going: `openNeighborsIter` succeeds for every iteration count. -/
theorem openNeighborsIter_isSome_of_cycle (n k : Nat) (s0 s1 : Game × List Nat)
    (h0 : openNeighborsIter n s0 = some s1) (hk : 0 < k)
    (hcyc : openNeighborsIter k s1 = some s1) :
    ∀ m, (openNeighborsIter m s0).isSome := by
  have hs1 : ∀ m, (openNeighborsIter m s1).isSome := by
    intro m
    induction m using Nat.strong_induction_on with
    | _ m ih =>
      rcases le_or_lt m k with h | h
      · have hsplit : openNeighborsIter k s1 =
            (openNeighborsIter m s1).bind (openNeighborsIter (k - m)) := by
          rw [← openNeighborsIter_add]; congr 1; omega
        rw [hcyc] at hsplit
        cases hm : openNeighborsIter m s1 with
        | none => rw [hm] at hsplit; simp at hsplit
        | some t => simp
      · have hsplit : openNeighborsIter m s1 =
            (openNeighborsIter k s1).bind (openNeighborsIter (m - k)) := by
          rw [← openNeighborsIter_add]; congr 1; omega
        rw [hcyc] at hsplit; simp at hsplit
        rw [hsplit]; exact ih (m - k) (by omega)
  intro m
  rcases le_or_lt m n with h | h
  · have hsplit : openNeighborsIter n s0 =
        (openNeighborsIter m s0).bind (openNeighborsIter (n - m)) := by
      rw [← openNeighborsIter_add]; congr 1; omega
    rw [h0] at hsplit
    cases hm : openNeighborsIter m s0 with
    | none => rw [hm] at hsplit; simp at hsplit
    | some t => simp
  · have hsplit : openNeighborsIter m s0 =
        (openNeighborsIter n s0).bind (openNeighborsIter (m - n)) := by
      rw [← openNeighborsIter_add]; congr 1; omega
    rw [h0] at hsplit; simp at hsplit
    rw [hsplit]; exact hs1 (m - n)

/-- A loop run that reaches a self-revisiting state exhausts any amount of
fuel: the C++ while-loop diverges. -/
theorem openNeighborsLoop_none_of_cycle (n k : Nat) (s0 s1 : Game × List Nat)
    (h0 : openNeighborsIter n s0 = some s1) (hk : 0 < k)
    (hcyc : openNeighborsIter k s1 = some s1) :
    ∀ fuel, openNeighborsLoop fuel s0.1 s0.2 = none := by
  intro fuel
  obtain ⟨t, ht⟩ := Option.isSome_iff_exists.mp
    (openNeighborsIter_isSome_of_cycle n k s0 s1 h0 hk hcyc fuel)
  have := openNeighborsLoop_unroll fuel s0 t ht 0
  simpa using this

/-- Folding set-insertion over fresh, duplicate-free indices appends them. -/
theorem insertIdx_foldl_append (l : List Nat) : ∀ (m : List Nat), l.Nodup →
    (∀ i ∈ l, i ∉ m) → l.foldl insertIdx m = m ++ l := by
  induction l with
  | nil => intro m _ _; simp
  | cons i rest ih =>
    intro m hnd hm
    have hnotm : i ∉ m := hm i (by simp)
    have h1 : insertIdx m i = m ++ [i] := by simp [insertIdx, hnotm]
    rw [List.foldl_cons, h1, ih (m ++ [i]) hnd.of_cons]
    · simp
    · intro j hj
      simp only [List.mem_append, List.mem_singleton]
      push_neg
      exact ⟨hm j (by simp [hj]), fun hji => (List.nodup_cons.mp hnd).1 (hji ▸ hj)⟩

/-- Behavior of the `RestartGame` close-loop on an active game: no error,
every listed cell closed and unlabeled with bomb flag and count untouched,
every listed index recorded as modified, everything else unchanged. -/
theorem closeCellsList_spec (l : List Nat) : ∀ (g : Game),
    g.state = MGS_Active →
    (∀ i ∈ l, i < g.cells.length) →
    (closeCellsList g l).2 = none ∧
    (closeCellsList g l).1.state = g.state ∧
    (closeCellsList g l).1.rows = g.rows ∧
    (closeCellsList g l).1.columns = g.columns ∧
    (closeCellsList g l).1.bombs = g.bombs ∧
    (closeCellsList g l).1.numberOfOpenedCells = g.numberOfOpenedCells ∧
    (closeCellsList g l).1.cells.length = g.cells.length ∧
    (closeCellsList g l).1.modifiedCellIndices = l.foldl insertIdx g.modifiedCellIndices ∧
    (∀ j, cellAt (closeCellsList g l).1 j =
      if j ∈ l then { cellAt g j with isOpened := false, label := MCL_None } else cellAt g j) := by
  induction l with
  | nil => intro g _ _; simp [closeCellsList]
  | cons i rest ih =>
    intro g hactive hl
    have hilen : i < g.cells.length := hl i (by simp)
    have hstep : closeAt g i =
        ({ g with cells := g.cells.set i { cellAt g i with isOpened := false, label := MCL_None },
                  modifiedCellIndices := insertIdx g.modifiedCellIndices i }, none) := by
      unfold closeAt OnModified
      simp [hactive, Nat.not_le.mpr hilen]
    set c1 : Cell := { cellAt g i with isOpened := false, label := MCL_None } with hc1
    set g1 : Game :=
      { g with cells := g.cells.set i c1,
               modifiedCellIndices := insertIdx g.modifiedCellIndices i } with hg1
    have hrun : closeCellsList g (i :: rest) = closeCellsList g1 rest := by
      simp only [closeCellsList, hstep]
    have hlen1 : g1.cells.length = g.cells.length := by simp [hg1]
    obtain ⟨h2, hst, hr, hc, hb, ho, hle, hmod, hcells⟩ :=
      ih g1 hactive (fun j hj => by rw [hlen1]; exact hl j (by simp [hj]))
    have hcell1 : ∀ j, cellAt g1 j = if j = i then c1 else cellAt g j := by
      intro j
      by_cases hji : j = i
      · subst hji; rw [if_pos rfl]; exact getD_set_self g.cells j c1 hilen
      · rw [if_neg hji]; exact getD_set_ne g.cells i j c1 (fun h => hji h.symm)
    rw [hrun]
    refine ⟨h2, hst, hr, hc, hb, ho, hlen1 ▸ hle, hmod, ?_⟩
    intro j
    rw [hcells j, hcell1 j]
    by_cases hji : j = i
    · subst hji
      by_cases hjr : j ∈ rest <;> simp [hjr, hc1]
    · by_cases hjr : j ∈ rest <;> simp [hji, hjr]

/-! ### Claim theorems -/

/-- C1: the claim fails on the code — `NewGame(9, 9, 10)` with the draw
sequence 0..9 succeeds, but because `plantBomb` calls
`SetNumberOfNeighborBombs` on every neighbor (which clears the neighbor's
bomb flag), each plant un-mines the previously planted adjacent mine: only
2 of the 10 planted mines survive, and cell 0 stores neighbor count 2
although only 1 of its neighbors is a mine. -/
theorem c1_planting_loses_mines :
    CreateGame 9 9 10 [0, 1, 2, 3, 4, 5, 6, 7, 8, 9] =
      .ok (some (createdGame 9 9 10 [0, 1, 2, 3, 4, 5, 6, 7, 8, 9])) ∧
    (createdGame 9 9 10 [0, 1, 2, 3, 4, 5, 6, 7, 8, 9]).bombs = 10 ∧
    (createdGame 9 9 10 [0, 1, 2, 3, 4, 5, 6, 7, 8, 9]).cells.length = 81 ∧
    countBombs (createdGame 9 9 10 [0, 1, 2, 3, 4, 5, 6, 7, 8, 9]) = 2 ∧
    (cellAt (createdGame 9 9 10 [0, 1, 2, 3, 4, 5, 6, 7, 8, 9]) 0).isBomb = false ∧
    (cellAt (createdGame 9 9 10 [0, 1, 2, 3, 4, 5, 6, 7, 8, 9]) 0).numberOfNeighborBombs = 2 ∧
    actualNeighborBombs (createdGame 9 9 10 [0, 1, 2, 3, 4, 5, 6, 7, 8, 9]) 0 = 1 :=
  ⟨rfl, by decide, by decide, by decide, by decide, by decide, by decide⟩

/-- C2: the claim fails on the code — on the reachable game `c2Start`
(a fresh 9 x 9, 10-mine board with the two adjacent zero-count cells 45 and
46 labeled Question), opening the in-grid seed 47 makes the `openNeighbors`
worklist loop run forever: after the flood settles, popping 45 re-enqueues
the still-closed 46 and vice versa, so the loop never empties its worklist
and the fueled model returns `none` for every fuel. -/
theorem c2_openNeighbors_diverges :
    c2Start.state = MGS_Active ∧ c2Start.cells.length = 81 ∧
    (cellAt c2Start 45).label = MCL_Question ∧ (cellAt c2Start 46).label = MCL_Question ∧
    ∀ fuel, OnOpen fuel c2Start 47 = none := by
  refine ⟨by decide, by decide, by decide, by decide, ?_⟩
  intro fuel
  have heq : OnOpen fuel c2Start 47 = openNeighborsLoop fuel c2s0.1 c2s0.2 := rfl
  rw [heq]
  exact openNeighborsLoop_none_of_cycle 100 2 c2s0 c2Cycle (by decide) (by decide)
    (by decide) fuel

/-- C3: the claim fails on the code — opening the closed, Question-labeled,
zero-count cell 47 is not a no-op: `open` leaves the labeled cell closed and
reports success, after which `OnOpen` still tests the cell's stored
neighbor count and flood-fills from it, opening 53 other cells (cell 46
among them) while cell 47 itself stays closed. -/
theorem c3_open_labeled_cell_floods_neighbors :
    c3Labeled.state = MGS_Active ∧
    (cellAt c3Labeled 47).isOpened = false ∧
    (cellAt c3Labeled 47).label = MCL_Question ∧
    c3Labeled.numberOfOpenedCells = 0 ∧
    OnOpen 1000 c3Labeled 47 = some (c3Result, none) ∧
    (cellAt c3Result 47).isOpened = false ∧
    (cellAt c3Result 46).isOpened = true ∧
    c3Result.numberOfOpenedCells = 53 :=
  ⟨by decide, by decide, by decide, by decide, rfl, by decide, by decide, by decide⟩

/-- C4 counterexample: on the reachable board `c4Pre` (70 of the 71 safe
cells opened, mines 18 and 20 labeled), the chord `Open` on the opened cell
19 opens the last safe cell: `openedCount` reaches 71 = 81 - 10, yet the
game state is still `MGS_Active` when the call returns, because the chord
path never runs `hasSuccess`. -/
theorem c4_chord_win_undetected :
    c4Pre.state = MGS_Active ∧
    c4Pre.numberOfOpenedCells = 70 ∧
    (cellAt c4Pre 19).isOpened = true ∧
    OnOpen 1000 c4Pre 19 = some c4Result ∧
    c4Result.2 = none ∧
    (c4Result.1).numberOfOpenedCells = 71 ∧
    (c4Result.1).cells.length = 81 ∧
    (c4Result.1).bombs = 10 ∧
    (c4Result.1).state = MGS_Active :=
  ⟨by decide, by decide, by decide, rfl, by decide, by decide, by decide, by decide, by decide⟩

/-- C6 counterexample: on the reachable board `c6Pre` (planting destroyed 3
of the 10 mines, and all safe cells are open except the zero-count pocket 80
and its closed, unlabeled, nonzero-count border 70, 71, 79), opening the
seed 80 does not open its bordering cells: the direct open raises
`openedCount` to 71 = 81 - `bombs`, `hasSuccess` flips the state to
`MGS_Success`, and the flood step is skipped, leaving 70, 71 and 79
closed. -/
theorem c6_seed_win_skips_flood :
    c6Pre.state = MGS_Active ∧
    c6Pre.numberOfOpenedCells = 70 ∧
    (cellAt c6Pre 80).isOpened = false ∧
    (cellAt c6Pre 80).label = MCL_None ∧
    (cellAt c6Pre 80).isBomb = false ∧
    (cellAt c6Pre 80).numberOfNeighborBombs = 0 ∧
    findNeighbors c6Pre 80 = [70, 71, 79] ∧
    (cellAt c6Pre 70).isOpened = false ∧ (cellAt c6Pre 70).numberOfNeighborBombs ≠ 0 ∧
    (cellAt c6Pre 71).isOpened = false ∧ (cellAt c6Pre 71).numberOfNeighborBombs ≠ 0 ∧
    (cellAt c6Pre 79).isOpened = false ∧ (cellAt c6Pre 79).numberOfNeighborBombs ≠ 0 ∧
    OnOpen 1000 c6Pre 80 = some c6Result ∧
    c6Result.2 = none ∧
    (c6Result.1).state = MGS_Success ∧
    (cellAt (c6Result.1) 80).isOpened = true ∧
    (cellAt (c6Result.1) 70).isOpened = false ∧
    (cellAt (c6Result.1) 71).isOpened = false ∧
    (cellAt (c6Result.1) 79).isOpened = false :=
  ⟨by decide, by decide, by decide, by decide, by decide, by decide, by decide, by decide,
    by decide, by decide, by decide, by decide, by decide, rfl, by decide, by decide,
    by decide, by decide, by decide, by decide⟩

/-- C7: `ModifiedCells` returns the coordinate of each recorded index
exactly once — the result has no duplicates, every recorded index
contributes its coordinate, every returned coordinate comes from a recorded
index — and clears the tracking set, so a second consecutive call returns
an empty vector. -/
theorem c7_modifiedCells_drain (g : Game)
    (hnodup : g.modifiedCellIndices.Nodup) :
    ((ModifiedCells g).1).Nodup ∧
    (∀ i ∈ g.modifiedCellIndices, (i / g.columns, i % g.columns) ∈ (ModifiedCells g).1) ∧
    (∀ p ∈ (ModifiedCells g).1, ∃ i ∈ g.modifiedCellIndices,
      p = (i / g.columns, i % g.columns)) ∧
    ((ModifiedCells g).2).modifiedCellIndices = [] ∧
    (ModifiedCells (ModifiedCells g).2).1 = [] := by
  have hinj : Function.Injective (fun i => (i / g.columns, i % g.columns)) := by
    intro i j hij
    simp only [Prod.mk.injEq] at hij
    obtain ⟨h1, h2⟩ := hij
    have hi := Nat.div_add_mod i g.columns
    have hj := Nat.div_add_mod j g.columns
    rw [h1, h2] at hi
    omega
  refine ⟨hnodup.map hinj, ?_, ?_, rfl, rfl⟩
  · intro i hi; exact List.mem_map_of_mem _ hi
  · intro p hp
    obtain ⟨i, hi, hpi⟩ := List.mem_map.mp hp
    exact ⟨i, hi, hpi.symm⟩

theorem c7_witness :
    gW7.modifiedCellIndices.Nodup ∧
    (((ModifiedCells gW7).1).Nodup ∧
      (∀ i ∈ gW7.modifiedCellIndices, (i / gW7.columns, i % gW7.columns) ∈ (ModifiedCells gW7).1) ∧
      (∀ p ∈ (ModifiedCells gW7).1, ∃ i ∈ gW7.modifiedCellIndices,
        p = (i / gW7.columns, i % gW7.columns)) ∧
      ((ModifiedCells gW7).2).modifiedCellIndices = [] ∧
      (ModifiedCells (ModifiedCells gW7).2).1 = []) :=
  ⟨by decide, c7_modifiedCells_drain gW7 (by decide)⟩

/-- C9 counterexample: on a fresh (closed, non-mine) cell the claim's
"not rejected" part fails — `NumberOfNeighborBombs` raises the invalid-state
error because the `!IsBomb()` guard calls `IsBomb()`, whose
`internal_check(IsOpened())` throws on any closed cell. -/
theorem c9_closed_nonmine_query_rejected :
    ({} : Cell).isOpened = false ∧ ({} : Cell).isBomb = false ∧
    cellNumberOfNeighborBombs {} = .error .internalError := by decide

/-- C9 (amended): `NumberOfNeighborBombs` returns the stored count exactly
for opened non-mine cells, and fails with the invalid-state error both for
mine cells and for closed cells (the closed case via the opened check
inside `IsBomb`). -/
theorem c9_count_query_guard (c : Cell) :
    cellNumberOfNeighborBombs c =
      if c.isOpened = true ∧ c.isBomb = false then .ok c.numberOfNeighborBombs
      else .error .internalError := by
  unfold cellNumberOfNeighborBombs cellIsBomb
  cases h : c.isOpened <;> cases h2 : c.isBomb <;> simp [h, h2]

/-- C10: calling `SetLabel` with a different label on a closed cell while
the game is Failure or Success writes the new label into the cell first and
only then raises the internal-program-state error from `OnModified`, so the
new label persists while the modified-cell set is left unchanged. -/
theorem c10_setLabel_terminal_mutates_then_raises (g : Game) (i : Nat)
    (l : TMinesweeperCellLabel)
    (hstate : g.state = MGS_Failure ∨ g.state = MGS_Success)
    (hi : i < g.cells.length)
    (hclosed : (cellAt g i).isOpened = false)
    (hdiff : (cellAt g i).label ≠ l) :
    SetLabel g i l =
      ({ g with cells := g.cells.set i { cellAt g i with label := l } }, some .internalError) ∧
    ({ g with cells := g.cells.set i { cellAt g i with label := l } } : Game).modifiedCellIndices
      = g.modifiedCellIndices ∧
    cellAt ({ g with cells := g.cells.set i { cellAt g i with label := l } } : Game) i
      = { cellAt g i with label := l } := by
  have hne : g.state ≠ MGS_Active := by rcases hstate with h | h <;> simp [h]
  refine ⟨?_, rfl, cellAt_set_self g i _ hi⟩
  unfold SetLabel OnModified
  simp [hclosed, hdiff, hne]

theorem c10_witness :
    (gW10.state = MGS_Failure ∨ gW10.state = MGS_Success) ∧
    (SetLabel gW10 0 MCL_Bomb = (gW10m, some .internalError) ∧
      gW10m.modifiedCellIndices = gW10.modifiedCellIndices ∧
      cellAt gW10m 0 = { cellAt gW10 0 with label := MCL_Bomb }) :=
  ⟨Or.inl rfl,
    c10_setLabel_terminal_mutates_then_raises gW10 0 MCL_Bomb (Or.inl rfl) (by decide)
      (by decide) (by decide)⟩

/-- C8: `RestartGame` raises no error and preserves every cell's bomb flag
and stored neighbor count while closing every cell, clearing every label,
resetting `openedCount` to 0 and the state to Active, and recording all
`rows * columns` cell indices as modified, so the next drain returns every
coordinate. -/
theorem c8_restartGame_keeps_mines (g : Game)
    (hlen : g.cells.length = g.rows * g.columns) :
    (RestartGame g).2 = none ∧
    (RestartGame g).1.state = MGS_Active ∧
    (RestartGame g).1.numberOfOpenedCells = 0 ∧
    (RestartGame g).1.cells.length = g.cells.length ∧
    (∀ i, i < g.cells.length →
      (cellAt (RestartGame g).1 i).isBomb = (cellAt g i).isBomb ∧
      (cellAt (RestartGame g).1 i).numberOfNeighborBombs = (cellAt g i).numberOfNeighborBombs ∧
      (cellAt (RestartGame g).1 i).isOpened = false ∧
      (cellAt (RestartGame g).1 i).label = MCL_None) ∧
    (RestartGame g).1.modifiedCellIndices = List.range (g.rows * g.columns) ∧
    (ModifiedCells (RestartGame g).1).1 =
      (List.range (g.rows * g.columns)).map (fun i => (i / g.columns, i % g.columns)) := by
  have hres : RestartGame g = closeCellsList (reset g) (List.range (reset g).cells.length) := rfl
  obtain ⟨h2, hst, hr, hc, hb, ho, hle, hmod, hcells⟩ :=
    closeCellsList_spec (List.range (reset g).cells.length) (reset g) rfl
      (fun j hj => List.mem_range.mp hj)
  have hrlen : (reset g).cells.length = g.cells.length := rfl
  have hmod2 : (closeCellsList (reset g) (List.range (reset g).cells.length)).1.modifiedCellIndices
      = List.range (g.rows * g.columns) := by
    rw [hmod, insertIdx_foldl_append _ _ (List.nodup_range _) (by simp [reset])]
    simp [reset, hrlen, hlen]
  refine ⟨by rw [hres]; exact h2, by rw [hres]; exact hst, by rw [hres]; exact ho,
    by rw [hres]; exact hle, ?_, by rw [hres]; exact hmod2, ?_⟩
  · intro i hi
    have hcl := hcells i
    rw [if_pos (List.mem_range.mpr (hrlen ▸ hi))] at hcl
    rw [hres, hcl]
    exact ⟨rfl, rfl, rfl, rfl⟩
  · rw [hres]
    unfold ModifiedCells
    rw [hmod2, hc]
    rfl

theorem c8_witness :
    gW8.cells.length = gW8.rows * gW8.columns ∧
    ((RestartGame gW8).2 = none ∧
      (RestartGame gW8).1.state = MGS_Active ∧
      (RestartGame gW8).1.numberOfOpenedCells = 0 ∧
      (RestartGame gW8).1.cells.length = gW8.cells.length ∧
      (∀ i, i < gW8.cells.length →
        (cellAt (RestartGame gW8).1 i).isBomb = (cellAt gW8 i).isBomb ∧
        (cellAt (RestartGame gW8).1 i).numberOfNeighborBombs =
          (cellAt gW8 i).numberOfNeighborBombs ∧
        (cellAt (RestartGame gW8).1 i).isOpened = false ∧
        (cellAt (RestartGame gW8).1 i).label = MCL_None) ∧
      (RestartGame gW8).1.modifiedCellIndices = List.range (gW8.rows * gW8.columns) ∧
      (ModifiedCells (RestartGame gW8).1).1 =
        (List.range (gW8.rows * gW8.columns)).map
          (fun i => (i / gW8.columns, i % gW8.columns))) :=
  ⟨by decide, c8_restartGame_keeps_mines gW8 (by decide)⟩

/-- `InternalOpen` on an active game at a valid index: no error, the target
cell (only) gains the opened flag, everything else is untouched. -/
theorem internalOpenAt_spec (g : Game) (i : Nat)
    (hactive : g.state = MGS_Active) (hi : i < g.cells.length) :
    (internalOpenAt g i).2 = none ∧
    (internalOpenAt g i).1.state = g.state ∧
    (internalOpenAt g i).1.rows = g.rows ∧
    (internalOpenAt g i).1.columns = g.columns ∧
    (internalOpenAt g i).1.bombs = g.bombs ∧
    (internalOpenAt g i).1.numberOfOpenedCells = g.numberOfOpenedCells ∧
    (internalOpenAt g i).1.cells.length = g.cells.length ∧
    (∀ j, cellAt (internalOpenAt g i).1 j =
      if j = i then { cellAt g j with isOpened := true } else cellAt g j) := by
  by_cases hop : (cellAt g i).isOpened
  · have hres : internalOpenAt g i = (g, none) := by
      unfold internalOpenAt; simp [hop]
    rw [hres]
    refine ⟨rfl, rfl, rfl, rfl, rfl, rfl, rfl, ?_⟩
    intro j
    by_cases hji : j = i
    · subst hji
      rcases hcv : cellAt g j with ⟨b, o, lb, n⟩
      rw [hcv] at hop
      simp only [] at hop
      simp [hop]
    · simp [hji]
  · have hres : internalOpenAt g i =
        ({ g with cells := g.cells.set i { cellAt g i with isOpened := true },
                  modifiedCellIndices := insertIdx g.modifiedCellIndices i }, none) := by
      unfold internalOpenAt OnModified
      simp [hop, hactive, Nat.not_le.mpr hi]
    rw [hres]
    refine ⟨rfl, rfl, rfl, rfl, rfl, rfl, by simp, ?_⟩
    intro j
    by_cases hji : j = i
    · subst hji; rw [if_pos rfl]; exact getD_set_self g.cells j _ hi
    · rw [if_neg hji]; exact getD_set_ne g.cells i j _ (fun h => hji h.symm)

/-- The `openBombs` loop on an active game over valid indices: no error,
every listed bomb cell gains the opened flag, everything else untouched. -/
theorem openBombsList_spec (l : List Nat) : ∀ (g : Game),
    g.state = MGS_Active →
    (∀ i ∈ l, i < g.cells.length) →
    (openBombsList g l).2 = none ∧
    (openBombsList g l).1.state = g.state ∧
    (openBombsList g l).1.rows = g.rows ∧
    (openBombsList g l).1.columns = g.columns ∧
    (openBombsList g l).1.bombs = g.bombs ∧
    (openBombsList g l).1.numberOfOpenedCells = g.numberOfOpenedCells ∧
    (openBombsList g l).1.cells.length = g.cells.length ∧
    (∀ j, cellAt (openBombsList g l).1 j =
      if j ∈ l ∧ (cellAt g j).isBomb = true then { cellAt g j with isOpened := true }
      else cellAt g j) := by
  induction l with
  | nil =>
    intro g _ _
    refine ⟨rfl, rfl, rfl, rfl, rfl, rfl, rfl, ?_⟩
    intro j
    simp [openBombsList]
  | cons i rest ih =>
    intro g hactive hl
    have hilen : i < g.cells.length := hl i (by simp)
    by_cases hbomb : (cellAt g i).isBomb = true
    · obtain ⟨i2, ist, ir, ic, ib, io, ile, icells⟩ := internalOpenAt_spec g i hactive hilen
      have hio : internalOpenAt g i = ((internalOpenAt g i).1, none) := by
        rw [← i2]
      have hrun : openBombsList g (i :: rest) = openBombsList (internalOpenAt g i).1 rest := by
        simp only [openBombsList, hbomb, if_true]
        rw [hio]
      set g1 : Game := (internalOpenAt g i).1 with hg1
      obtain ⟨h2, hst, hr, hc, hb, ho, hle, hcells⟩ :=
        ih g1 (by rw [ist, hactive]) (fun j hj => by rw [ile]; exact hl j (by simp [hj]))
      rw [hrun]
      refine ⟨h2, by rw [hst, ist], by rw [hr, ir], by rw [hc, ic], by rw [hb, ib],
        by rw [ho, io], by rw [hle, ile], ?_⟩
      intro j
      rw [hcells j]
      by_cases hji : j = i
      · subst hji
        have hc1 : cellAt g1 j = { cellAt g j with isOpened := true } := by
          rw [icells j]; simp
        rw [hc1]
        have hmem : j ∈ j :: rest := by simp
        rw [if_pos (⟨hmem, hbomb⟩ : j ∈ j :: rest ∧ (cellAt g j).isBomb = true)]
        by_cases hjr : j ∈ rest
        · rw [if_pos ⟨hjr, hbomb⟩]
        · rw [if_neg (fun h => hjr h.1)]
      · have hthis : cellAt g1 j = cellAt g j := by rw [icells j, if_neg hji]
        rw [hthis]
        by_cases hjb : j ∈ rest ∧ (cellAt g j).isBomb = true
        · rw [if_pos hjb, if_pos ⟨List.mem_cons_of_mem i hjb.1, hjb.2⟩]
        · rw [if_neg hjb,
            if_neg (fun h => hjb ⟨(List.mem_cons.mp h.1).resolve_left hji, h.2⟩)]
    · have hrun : openBombsList g (i :: rest) = openBombsList g rest := by
        simp only [openBombsList, if_neg hbomb]
      obtain ⟨h2, hst, hr, hc, hb, ho, hle, hcells⟩ := ih g hactive
        (fun j hj => hl j (by simp [hj]))
      rw [hrun]
      refine ⟨h2, hst, hr, hc, hb, ho, hle, ?_⟩
      intro j
      rw [hcells j]
      by_cases hji : j = i
      · subst hji
        rw [if_neg (fun h => hbomb h.2), if_neg (fun h => hbomb h.2)]
      · by_cases hjb : j ∈ rest ∧ (cellAt g j).isBomb = true
        · rw [if_pos hjb, if_pos ⟨List.mem_cons_of_mem i hjb.1, hjb.2⟩]
        · rw [if_neg hjb,
            if_neg (fun h => hjb ⟨(List.mem_cons.mp h.1).resolve_left hji, h.2⟩)]

/-- The inner flood-fill loop returns from `openNeighbors` the moment
`open` reports a mine, ignoring the remaining queued neighbors. -/
theorem processNeighbors_mine_stops (g2 g3 : Game) (wl : List Nat) (n : Nat) (rest : List Nat)
    (hcl : (cellAt g2 n).isOpened = false)
    (hoc : openCell g2 n = ((g3, none), false)) :
    processNeighbors g2 wl (n :: rest) = Sum.inl (g3, none) := by
  unfold processNeighbors
  simp [hcl, hoc]

/-- C5: opening a closed, unlabeled mine cell in an Active game returns
without an exception, sets the state to Failure, opens every cell whose mine
flag is set (the opened cell included) while changing no mine flag; any
further `Open` on any cell then raises the internal-program-state error with
the game unchanged, and the flood-fill loop stops at a mine hit immediately,
processing none of the remaining queued neighbors. -/
theorem c5_open_mine (fuel : Nat) (g : Game) (i : Nat)
    (hactive : g.state = MGS_Active) (hi : i < g.cells.length)
    (hclosed : (cellAt g i).isOpened = false)
    (hlabel : (cellAt g i).label = MCL_None)
    (hbomb : (cellAt g i).isBomb = true) :
    ∃ g1,
      OnOpen fuel g i = some (g1, none) ∧
      g1.state = MGS_Failure ∧
      g1.cells.length = g.cells.length ∧
      (∀ j, (cellAt g1 j).isBomb = (cellAt g j).isBomb) ∧
      (∀ j, j < g1.cells.length → (cellAt g1 j).isBomb = true → (cellAt g1 j).isOpened = true) ∧
      (cellAt g1 i).isOpened = true ∧
      (∀ j fuel2, OnOpen fuel2 g1 j = some (g1, some .internalError)) ∧
      (∀ (ga gb : Game) (wl : List Nat) (n : Nat) (rest : List Nat),
        (cellAt ga n).isOpened = false →
        openCell ga n = ((gb, none), false) →
        processNeighbors ga wl (n :: rest) = Sum.inl (gb, none)) := by
  obtain ⟨i2, ist, ir, ic, ib, io, ile, icells⟩ := internalOpenAt_spec g i hactive hi
  have hio : internalOpenAt g i = ((internalOpenAt g i).1, none) := by rw [← i2]
  set ga : Game := (internalOpenAt g i).1 with hga
  obtain ⟨b2, bst, br, bc, bb, bo, ble, bcells⟩ :=
    openBombsList_spec (List.range ga.cells.length) ga (by rw [ist, hactive])
      (fun j hj => List.mem_range.mp hj)
  have hbo : openBombsList ga (List.range ga.cells.length)
      = ((openBombsList ga (List.range ga.cells.length)).1, none) := by rw [← b2]
  set gb : Game := (openBombsList ga (List.range ga.cells.length)).1 with hgb
  have hopenBombs : openBombs ga = ({ gb with state := MGS_Failure }, none) := by
    unfold openBombs
    rw [hbo]
  have hoc : openCell g i = ((({ gb with state := MGS_Failure } : Game), none), false) := by
    unfold openCell
    simp only [hclosed, Bool.false_eq_true, not_false_eq_true, hlabel, true_and, if_true]
    rw [hio, hbomb]
    simp [hopenBombs]
  set g1 : Game := { gb with state := MGS_Failure } with hg1
  have hrun : OnOpen fuel g i = some (g1, none) := by
    unfold OnOpen
    simp only [hactive, ne_eq, not_true_eq_false, if_false, Nat.not_le.mpr hi, hclosed]
    rw [hoc]
    simp
  have hbombeq : ∀ j, (cellAt g1 j).isBomb = (cellAt g j).isBomb := by
    intro j
    have h1 : cellAt g1 j = cellAt gb j := rfl
    have h2 : (cellAt gb j).isBomb = (cellAt ga j).isBomb := by
      rw [bcells j]; split <;> rfl
    have h3 : (cellAt ga j).isBomb = (cellAt g j).isBomb := by
      rw [icells j]; split <;> rfl
    rw [h1, h2, h3]
  refine ⟨g1, hrun, rfl, by rw [show g1.cells.length = gb.cells.length from rfl, ble, ile],
    hbombeq, ?_, ?_, ?_, ?_⟩
  · intro j hjlen hjbomb
    have h1 : cellAt g1 j = cellAt gb j := rfl
    have hjlen2 : j < ga.cells.length := by
      rw [ile]
      rw [show g1.cells.length = gb.cells.length from rfl, ble, ile] at hjlen
      exact hjlen
    have hjbomba : (cellAt ga j).isBomb = true := by
      rw [hbombeq j] at hjbomb
      rw [icells j]
      by_cases hji : j = i
      · subst hji; simp [hjbomb]
      · rw [if_neg hji]; exact hjbomb
    rw [h1, bcells j, if_pos ⟨List.mem_range.mpr hjlen2, hjbomba⟩]
  · have h1 : cellAt g1 i = cellAt gb i := rfl
    have hba : (cellAt ga i).isBomb = true := by
      rw [icells i, if_pos rfl]; simp [hbomb]
    rw [h1, bcells i, if_pos ⟨List.mem_range.mpr (by rw [ile]; exact hi), hba⟩]
  · intro j fuel2
    have hfail : g1.state = MGS_Failure := rfl
    unfold OnOpen
    simp [hfail]
  · intro ga2 gb2 wl n rest hcl hoc2
    exact processNeighbors_mine_stops ga2 gb2 wl n rest hcl hoc2

theorem c5_witness :
    (gW5.state = MGS_Active ∧ 0 < gW5.cells.length ∧
      (cellAt gW5 0).isOpened = false ∧ (cellAt gW5 0).label = MCL_None ∧
      (cellAt gW5 0).isBomb = true) ∧
    (∃ g1,
      OnOpen 5 gW5 0 = some (g1, none) ∧
      g1.state = MGS_Failure ∧
      g1.cells.length = gW5.cells.length ∧
      (∀ j, (cellAt g1 j).isBomb = (cellAt gW5 j).isBomb) ∧
      (∀ j, j < g1.cells.length → (cellAt g1 j).isBomb = true → (cellAt g1 j).isOpened = true) ∧
      (cellAt g1 0).isOpened = true ∧
      (∀ j fuel2, OnOpen fuel2 g1 j = some (g1, some .internalError)) ∧
      (∀ (ga gb : Game) (wl : List Nat) (n : Nat) (rest : List Nat),
        (cellAt ga n).isOpened = false →
        openCell ga n = ((gb, none), false) →
        processNeighbors ga wl (n :: rest) = Sum.inl (gb, none))) :=
  ⟨⟨rfl, by decide, by decide, by decide, by decide⟩,
    c5_open_mine 5 gW5 0 rfl (by decide) (by decide) (by decide) (by decide)⟩

/-- `open` on a closed, unlabeled, non-mine cell of an active game: opens
exactly that cell, bumps `numberOfOpenedCells`, reports success. -/
theorem openCell_safe (g : Game) (i : Nat)
    (hactive : g.state = MGS_Active) (hi : i < g.cells.length)
    (hclosed : (cellAt g i).isOpened = false)
    (hlabel : (cellAt g i).label = MCL_None)
    (hnotbomb : (cellAt g i).isBomb = false) :
    ∃ g2, openCell g i = ((g2, none), true) ∧
      g2.state = g.state ∧
      g2.rows = g.rows ∧
      g2.columns = g.columns ∧
      g2.bombs = g.bombs ∧
      g2.numberOfOpenedCells = g.numberOfOpenedCells + 1 ∧
      g2.cells.length = g.cells.length ∧
      (∀ j, cellAt g2 j = if j = i then { cellAt g j with isOpened := true } else cellAt g j) := by
  obtain ⟨i2, ist, ir, ic, ib, io, ile, icells⟩ := internalOpenAt_spec g i hactive hi
  have hio : internalOpenAt g i = ((internalOpenAt g i).1, none) := by rw [← i2]
  set ga : Game := (internalOpenAt g i).1 with hga
  refine ⟨{ ga with numberOfOpenedCells := ga.numberOfOpenedCells + 1 }, ?_, ?_, ?_, ?_, ?_,
    ?_, ?_, ?_⟩
  · unfold openCell
    simp only [hclosed, Bool.false_eq_true, not_false_eq_true, hlabel, true_and, if_true]
    rw [hio]
    simp [hnotbomb]
  · exact ist
  · exact ir
  · exact ic
  · exact ib
  · simp [io]
  · exact ile
  · exact icells

/-- C4 (amended): the win check runs only on the direct-open path — when
the directly opened seed cell itself brings `openedCount` to
`totalCells - mines`, `hasSuccess` sets the state to Success before the
call returns (the counterexample shows the flood/chord paths leave the
state Active). -/
theorem c4_direct_open_sets_success (fuel : Nat) (g : Game) (i : Nat)
    (hactive : g.state = MGS_Active) (hi : i < g.cells.length)
    (hclosed : (cellAt g i).isOpened = false)
    (hlabel : (cellAt g i).label = MCL_None)
    (hnotbomb : (cellAt g i).isBomb = false)
    (hcount : g.numberOfOpenedCells + 1 = g.cells.length - g.bombs) :
    ∃ g1, OnOpen fuel g i = some (g1, none) ∧
      g1.state = MGS_Success ∧
      g1.numberOfOpenedCells = g.cells.length - g.bombs ∧
      (cellAt g1 i).isOpened = true ∧
      g1.cells.length = g.cells.length := by
  obtain ⟨g2, hoc, hst, hr, hc, hb, ho, hle, hcells⟩ :=
    openCell_safe g i hactive hi hclosed hlabel hnotbomb
  have hsafe : g2.cells.length - g2.bombs = g.cells.length - g.bombs := by rw [hle, hb]
  have hcount2 : g2.numberOfOpenedCells = g2.cells.length - g2.bombs := by
    rw [ho, hcount, hsafe]
  have hsucc : hasSuccess g2 = ((({ g2 with state := MGS_Success } : Game), none), true) := by
    unfold hasSuccess
    rw [if_neg (by rw [hst, hactive]; simp)]
    rw [if_neg (by rw [hcount2]; omega), if_pos hcount2]
  refine ⟨{ g2 with state := MGS_Success }, ?_, rfl, by simpa [hcount, hsafe] using hcount2, ?_, by rw [show ({ g2 with state := MGS_Success } : Game).cells.length = g2.cells.length from rfl, hle]⟩
  · unfold OnOpen
    simp [hactive, Nat.not_le.mpr hi, hclosed, hoc, hsucc]
  · have : cellAt ({ g2 with state := MGS_Success } : Game) i = cellAt g2 i := rfl
    rw [this, hcells i, if_pos rfl]

theorem c4_witness :
    (gW4.state = MGS_Active ∧ 0 < gW4.cells.length ∧
      (cellAt gW4 0).isOpened = false ∧ (cellAt gW4 0).label = MCL_None ∧
      (cellAt gW4 0).isBomb = false ∧
      gW4.numberOfOpenedCells + 1 = gW4.cells.length - gW4.bombs) ∧
    (∃ g1, OnOpen 3 gW4 0 = some (g1, none) ∧
      g1.state = MGS_Success ∧
      g1.numberOfOpenedCells = gW4.cells.length - gW4.bombs ∧
      (cellAt g1 0).isOpened = true ∧
      g1.cells.length = gW4.cells.length) :=
  ⟨⟨rfl, by decide, by decide, by decide, by decide, by decide⟩,
    c4_direct_open_sets_success 3 gW4 0 rfl (by decide) (by decide) (by decide) (by decide)
      (by decide)⟩

theorem findNeighbors_lt (g : Game) (i : Nat)
    (hshape : g.cells.length = g.rows * g.columns) (hcols : 0 < g.columns)
    (hi : i < g.cells.length) : ∀ j ∈ findNeighbors g i, j < g.cells.length := by
  intro j hj
  rw [hshape] at hi ⊢
  have hc : i % g.columns < g.columns := Nat.mod_lt i hcols
  have hd : g.columns * (i / g.columns) + i % g.columns = i := Nat.div_add_mod i g.columns
  unfold findNeighbors at hj
  simp only [] at hj
  generalize hq : i / g.columns = q at hj hd
  generalize hrm : i % g.columns = r at hj hd hc
  have hr : q < g.rows := by
    by_contra hcon
    push_neg at hcon
    have h := Nat.mul_le_mul_right g.columns hcon
    have h3 : g.rows * g.columns ≤ q * g.columns := h
    have h4 : q * g.columns = g.columns * q := Nat.mul_comm _ _
    omega
  have hA : g.columns * q + g.columns ≤ g.rows * g.columns := by
    have h : (q + 1) * g.columns ≤ g.rows * g.columns := Nat.mul_le_mul_right g.columns hr
    calc g.columns * q + g.columns = (q + 1) * g.columns := by ring
      _ ≤ g.rows * g.columns := h
  by_cases hbot : q < g.rows - 1
  · have hq2 : q + 2 ≤ g.rows := by omega
    have hB : g.columns * q + 2 * g.columns ≤ g.rows * g.columns := by
      have h : (q + 2) * g.columns ≤ g.rows * g.columns := Nat.mul_le_mul_right g.columns hq2
      calc g.columns * q + 2 * g.columns = (q + 2) * g.columns := by ring
        _ ≤ g.rows * g.columns := h
    split_ifs at hj <;>
      simp only [List.mem_append, List.mem_cons, List.mem_singleton, List.not_mem_nil,
        or_false, false_or] at hj <;>
      (repeat rcases hj with hj | hj) <;> omega
  · split_ifs at hj <;>
      simp only [List.mem_append, List.mem_cons, List.mem_singleton, List.not_mem_nil,
        or_false, false_or] at hj <;>
      (repeat rcases hj with hj | hj) <;> omega

theorem self_not_mem_findNeighbors (g : Game) (i : Nat) (hcols : 0 < g.columns) :
    i ∉ findNeighbors g i := by
  intro hj
  have hc : i % g.columns < g.columns := Nat.mod_lt i hcols
  have hd : g.columns * (i / g.columns) + i % g.columns = i := Nat.div_add_mod i g.columns
  unfold findNeighbors at hj
  simp only [] at hj
  generalize hq : i / g.columns = q at hj hd
  generalize hrm : i % g.columns = r at hj hd hc
  by_cases htop : 0 < q
  · have hcq : g.columns ≤ g.columns * q := by
      calc g.columns = g.columns * 1 := by ring
        _ ≤ g.columns * q := Nat.mul_le_mul_left _ htop
    split_ifs at hj <;>
      simp only [List.mem_append, List.mem_cons, List.mem_singleton, List.not_mem_nil,
        or_false, false_or] at hj <;>
      (repeat rcases hj with hj | hj) <;> omega
  · split_ifs at hj <;>
      simp only [List.mem_append, List.mem_cons, List.mem_singleton, List.not_mem_nil,
        or_false, false_or] at hj <;>
      (repeat rcases hj with hj | hj) <;> omega

theorem findNeighbors_congr (g1 g2 : Game) (hr : g1.rows = g2.rows)
    (hc : g1.columns = g2.columns) (i : Nat) :
    findNeighbors g1 i = findNeighbors g2 i := by
  unfold findNeighbors
  rw [hr, hc]

theorem reachOpen_lt (g : Game) (s : Nat)
    (hshape : g.cells.length = g.rows * g.columns) (hcols : 0 < g.columns)
    (hs : s < g.cells.length) :
    ∀ j, ReachOpen g s j → j < g.cells.length := by
  intro j h
  induction h with
  | seed => exact hs
  | step hreach h0 hmem ih => exact findNeighbors_lt g _ hshape hcols ih _ hmem

theorem reachOpen_not_bomb (g : Game) (s : Nat)
    (hshape : g.cells.length = g.rows * g.columns) (hcols : 0 < g.columns)
    (hs : s < g.cells.length)
    (hseedbomb : (cellAt g s).isBomb = false)
    (hzero : ∀ i, i < g.cells.length → (cellAt g i).numberOfNeighborBombs = 0 →
      ∀ j ∈ findNeighbors g i, (cellAt g j).isBomb = false) :
    ∀ j, ReachOpen g s j → (cellAt g j).isBomb = false := by
  intro j h
  induction h with
  | seed => exact hseedbomb
  | step hreach h0 hmem ih =>
    exact hzero _ (reachOpen_lt g s hshape hcols hs _ hreach) h0 _ hmem

theorem reachOpen_subset (g : Game) (s : Nat) (L : List Nat) (hseed : s ∈ L)
    (hstep : ∀ i ∈ L, (cellAt g i).numberOfNeighborBombs = 0 →
      ∀ j ∈ findNeighbors g i, j ∈ L) :
    ∀ j, ReachOpen g s j → j ∈ L := by
  intro j h
  induction h with
  | seed => exact hseed
  | step hreach h0 hmem ih => exact hstep _ ih h0 _ hmem

theorem closedCount_le (gc : Game) (n : Nat) : closedCount gc n ≤ n := by
  unfold closedCount
  calc ((Finset.range n).filter (fun j => (cellAt gc j).isOpened = false)).card
      ≤ (Finset.range n).card := Finset.card_filter_le _ _
    _ = n := Finset.card_range n

theorem closedCount_open (gc gc2 : Game) (n i : Nat) (hi : i < n)
    (hclosed : (cellAt gc i).isOpened = false)
    (hcell : ∀ j, cellAt gc2 j =
      if j = i then { cellAt gc j with isOpened := true } else cellAt gc j) :
    closedCount gc2 n + 1 = closedCount gc n := by
  unfold closedCount
  have hset : (Finset.range n).filter (fun j => (cellAt gc2 j).isOpened = false)
      = ((Finset.range n).filter (fun j => (cellAt gc j).isOpened = false)).erase i := by
    ext j
    simp only [Finset.mem_filter, Finset.mem_erase, Finset.mem_range]
    constructor
    · rintro ⟨hjn, hval⟩
      by_cases hji : j = i
      · subst hji
        rw [hcell j, if_pos rfl] at hval
        simp at hval
      · rw [hcell j, if_neg hji] at hval
        exact ⟨hji, hjn, hval⟩
    · rintro ⟨hji, hjn, hval⟩
      refine ⟨hjn, ?_⟩
      rw [hcell j, if_neg hji]
      exact hval
  have hmem : i ∈ (Finset.range n).filter (fun j => (cellAt gc j).isOpened = false) :=
    Finset.mem_filter.mpr ⟨Finset.mem_range.mpr hi, hclosed⟩
  have hpos : 0 < ((Finset.range n).filter (fun j => (cellAt gc j).isOpened = false)).card :=
    Finset.card_pos.mpr ⟨i, hmem⟩
  rw [hset, Finset.card_erase_of_mem hmem]
  omega

/-- Membership in the set-insertion. -/
theorem mem_insertIdx (l : List Nat) (i j : Nat) : j ∈ insertIdx l i ↔ j ∈ l ∨ j = i := by
  unfold insertIdx
  split_ifs with h
  · constructor
    · exact Or.inl
    · rintro (hj | hj)
      · exact hj
      · exact hj ▸ h
  · simp [List.mem_append]

/-- Set-insertion grows a worklist by at most one entry. -/
theorem length_insertIdx (l : List Nat) (i : Nat) : (insertIdx l i).length ≤ l.length + 1 := by
  unfold insertIdx
  split_ifs <;> simp

/-- Processing one popped cell's neighbor list inside `openNeighbors`, in
the setting of the amended C6 claim (fresh region, no mine adjacent to a
zero-count cell): the loop never returns early, the invariants are
preserved, the opened set only grows, every processed neighbor ends up open,
and the termination measure (closed cells plus worklist length) does not
grow. -/
theorem processNeighbors_spec (g : Game) (s : Nat)
    (hshape : g.cells.length = g.rows * g.columns) (hcols : 0 < g.columns)
    (hslt : s < g.cells.length)
    (hfresh : ∀ j, ReachOpen g s j →
      (cellAt g j).isOpened = false ∧ (cellAt g j).label = MCL_None)
    (hnobomb : ∀ j, ReachOpen g s j → (cellAt g j).isBomb = false)
    (current : Nat) (hcur : ReachOpen g s current)
    (hcurz : (cellAt g current).numberOfNeighborBombs = 0) :
    ∀ (ns : List Nat) (gc : Game) (wl : List Nat),
      FloodInv g s gc wl →
      FloodDone g s gc wl [current] →
      (∀ n ∈ ns, n ∈ findNeighbors g current) →
      (∀ j ∈ findNeighbors g current, j ∈ ns ∨ (cellAt gc j).isOpened = true) →
      ∃ gc1 wl1, processNeighbors gc wl ns = Sum.inr (gc1, wl1) ∧
        FloodInv g s gc1 wl1 ∧
        FloodDone g s gc1 wl1 [current] ∧
        (∀ j, (cellAt gc j).isOpened = true → (cellAt gc1 j).isOpened = true) ∧
        (∀ j ∈ findNeighbors g current, (cellAt gc1 j).isOpened = true) ∧
        (∀ i ∈ wl, i ∈ wl1) ∧
        closedCount gc1 g.cells.length + wl1.length ≤
          closedCount gc g.cells.length + wl.length := by
  intro ns
  induction ns with
  | nil =>
    intro gc wl hinv hdone hns hsplit
    refine ⟨gc, wl, rfl, hinv, hdone, fun j h => h, ?_, fun i h => h, le_refl _⟩
    intro j hj
    rcases hsplit j hj with h | h
    · exact absurd h (List.not_mem_nil j)
    · exact h
  | cons n rest ih =>
    intro gc wl hinv hdone hns hsplit
    obtain ⟨hrows, hcolseq, hlen, hactive, hframe, hsound, hA⟩ := hinv
    have hnmem : n ∈ findNeighbors g current := hns n (List.mem_cons_self n rest)
    have hreachn : ReachOpen g s n := ReachOpen.step hcur hcurz hnmem
    have hnlt : n < g.cells.length := reachOpen_lt g s hshape hcols hslt n hreachn
    by_cases hop : (cellAt gc n).isOpened = true
    · have hrun : processNeighbors gc wl (n :: rest) = processNeighbors gc wl rest := by
        simp only [processNeighbors, hop, if_true]
      obtain ⟨gc1, wl1, hp, hinv1, hdone1, hmono, hopen, hwlsub, hmeas⟩ :=
        ih gc wl ⟨hrows, hcolseq, hlen, hactive, hframe, hsound, hA⟩ hdone
          (fun m hm => hns m (by simp [hm]))
          (fun j hj => by
            rcases hsplit j hj with hin | hin
            · rcases List.mem_cons.mp hin with h | h
              · exact Or.inr (h ▸ hop)
              · exact Or.inl h
            · exact Or.inr hin)
      rw [hrun]
      exact ⟨gc1, wl1, hp, hinv1, hdone1, hmono, hopen, hwlsub, hmeas⟩
    · have hopf : (cellAt gc n).isOpened = false := by
        cases h : (cellAt gc n).isOpened
        · rfl
        · exact absurd h hop
      have hlabeln : (cellAt gc n).label = MCL_None := by
        rw [(hframe n).2.2]; exact (hfresh n hreachn).2
      have hbombn : (cellAt gc n).isBomb = false := by
        rw [(hframe n).1]; exact hnobomb n hreachn
      obtain ⟨g2, hoc, hst2, hr2, hc2, hb2, ho2, hle2, hcells2⟩ :=
        openCell_safe gc n hactive (by rw [hlen]; exact hnlt) hopf hlabeln hbombn
      have hrun : processNeighbors gc wl (n :: rest) =
          processNeighbors g2
            (if (cellAt g2 n).numberOfNeighborBombs = 0 then insertIdx wl n else wl) rest := by
        simp only [processNeighbors, hopf, Bool.false_eq_true, if_false, hoc]
      set wl2 : List Nat :=
        if (cellAt g2 n).numberOfNeighborBombs = 0 then insertIdx wl n else wl with hwl2
      have hopeng2n : (cellAt g2 n).isOpened = true := by
        rw [hcells2 n, if_pos rfl]
      have hcount2 : (cellAt g2 n).numberOfNeighborBombs =
          (cellAt g n).numberOfNeighborBombs := by
        rw [hcells2 n, if_pos rfl]
        exact (hframe n).2.1
      have hmono2 : ∀ j, (cellAt gc j).isOpened = true → (cellAt g2 j).isOpened = true := by
        intro j hj
        rw [hcells2 j]
        by_cases hji : j = n
        · rw [if_pos hji]
        · rw [if_neg hji]; exact hj
      have hwlsub2 : ∀ i ∈ wl, i ∈ wl2 := by
        intro i hi
        rw [hwl2]
        split_ifs
        · exact (mem_insertIdx wl n i).mpr (Or.inl hi)
        · exact hi
      have hframe2 : ∀ j, (cellAt g2 j).isBomb = (cellAt g j).isBomb ∧
          (cellAt g2 j).numberOfNeighborBombs = (cellAt g j).numberOfNeighborBombs ∧
          (cellAt g2 j).label = (cellAt g j).label := by
        intro j
        rw [hcells2 j]
        by_cases hji : j = n
        · rw [if_pos hji]
          subst hji
          exact ⟨(hframe j).1, (hframe j).2.1, (hframe j).2.2⟩
        · rw [if_neg hji]
          exact hframe j
      have hsound2 : ∀ j, (cellAt g2 j).isOpened = true →
          (cellAt g j).isOpened = true ∨ ReachOpen g s j := by
        intro j hj
        by_cases hji : j = n
        · exact Or.inr (hji ▸ hreachn)
        · rw [hcells2 j, if_neg hji] at hj
          exact hsound j hj
      have hA2 : ∀ i ∈ wl2, ReachOpen g s i ∧ (cellAt g i).numberOfNeighborBombs = 0 ∧
          (cellAt g2 i).isOpened = true ∧ i < g.cells.length := by
        intro i hi
        rw [hwl2] at hi
        by_cases hz : (cellAt g2 n).numberOfNeighborBombs = 0
        · rw [if_pos hz] at hi
          rcases (mem_insertIdx wl n i).mp hi with hiw | hin
          · obtain ⟨h1, h2, h3, h4⟩ := hA i hiw
            exact ⟨h1, h2, hmono2 i h3, h4⟩
          · subst hin
            exact ⟨hreachn, by rw [← hcount2]; exact hz, hopeng2n, hnlt⟩
        · rw [if_neg hz] at hi
          obtain ⟨h1, h2, h3, h4⟩ := hA i hi
          exact ⟨h1, h2, hmono2 i h3, h4⟩
      have hdone2 : FloodDone g s g2 wl2 [current] := by
        intro i hreach hcount0 hopened hnotwl2 hnotex
        by_cases hin : i = n
        · subst hin
          have hz : (cellAt g2 i).numberOfNeighborBombs = 0 := by
            rw [hcount2]; exact hcount0
          exfalso
          apply hnotwl2
          rw [hwl2, if_pos hz]
          exact (mem_insertIdx wl i i).mpr (Or.inr rfl)
        · have hopenedgc : (cellAt gc i).isOpened = true := by
            rw [hcells2 i, if_neg hin] at hopened
            exact hopened
          have hnotwl : i ∉ wl := fun h => hnotwl2 (hwlsub2 i h)
          intro j hj
          exact hmono2 j (hdone i hreach hcount0 hopenedgc hnotwl hnotex j hj)
      have hmeas2 : closedCount g2 g.cells.length + wl2.length ≤
          closedCount gc g.cells.length + wl.length := by
        have hco := closedCount_open gc g2 g.cells.length n hnlt hopf hcells2
        have hl2 : wl2.length ≤ wl.length + 1 := by
          rw [hwl2]
          split_ifs
          · exact length_insertIdx wl n
          · omega
        omega
      obtain ⟨gc1, wl1, hp, hinv1, hdone1, hmono1, hopen1, hwlsub1, hmeas1⟩ :=
        ih g2 wl2
          ⟨hr2.trans hrows, hc2.trans hcolseq, hle2.trans hlen, by rw [hst2]; exact hactive,
            hframe2, hsound2, hA2⟩
          hdone2
          (fun m hm => hns m (by simp [hm]))
          (fun j hj => by
            rcases hsplit j hj with hin | hin
            · rcases List.mem_cons.mp hin with h | h
              · exact Or.inr (h ▸ hopeng2n)
              · exact Or.inl h
            · exact Or.inr (hmono2 j hin))
      refine ⟨gc1, wl1, ?_, hinv1, hdone1, fun j hj => hmono1 j (hmono2 j hj), hopen1,
        fun i hi => hwlsub1 i (hwlsub2 i hi), by omega⟩
      rw [hrun]
      exact hp

/-- The `openNeighbors` while-loop, under the flood invariants: it
terminates within the fuel (each iteration pops one item and every enqueue
is paid for by a newly opened cell), raises no error, never hits a mine,
and ends with every opened zero-count region cell having all neighbors
open. -/
theorem openNeighborsLoop_flood (g : Game) (s : Nat)
    (hshape : g.cells.length = g.rows * g.columns) (hcols : 0 < g.columns)
    (hslt : s < g.cells.length)
    (hfresh : ∀ j, ReachOpen g s j →
      (cellAt g j).isOpened = false ∧ (cellAt g j).label = MCL_None)
    (hnobomb : ∀ j, ReachOpen g s j → (cellAt g j).isBomb = false) :
    ∀ (fuel : Nat) (gc : Game) (wl : List Nat),
      FloodInv g s gc wl →
      FloodDone g s gc wl [] →
      closedCount gc g.cells.length + wl.length < fuel →
      ∃ g1, openNeighborsLoop fuel gc wl = some (g1, none) ∧
        FloodInv g s g1 [] ∧
        FloodDone g s g1 [] [] ∧
        (∀ j, (cellAt gc j).isOpened = true → (cellAt g1 j).isOpened = true) := by
  intro fuel
  induction fuel with
  | zero => intro gc wl _ _ hmeas; omega
  | succ fuel ih =>
    intro gc wl hinv hdone hmeas
    cases wl with
    | nil =>
      have hrun : openNeighborsLoop (fuel + 1) gc [] = some (gc, none) := by
        simp [openNeighborsLoop, openNeighborsStep]
      exact ⟨gc, hrun, hinv, hdone, fun j h => h⟩
    | cons current rest =>
      obtain ⟨hrows, hcolseq, hlen, hactive, hframe, hsound, hA⟩ := hinv
      obtain ⟨hcur, hcurz, hcuropen, hcurlt⟩ := hA current (List.mem_cons_self current rest)
      have hdone2 : FloodDone g s gc rest [current] := by
        intro i h1 h2 h3 h4 h5
        apply hdone i h1 h2 h3
        · intro hmem
          rcases List.mem_cons.mp hmem with h | h
          · exact h5 (by simp [h])
          · exact h4 h
        · simp
      obtain ⟨gc1, wl1, hp, hinv1, hdone1, hmono1, hopen1, hwlsub1, hmeas1⟩ :=
        processNeighbors_spec g s hshape hcols hslt hfresh hnobomb current hcur hcurz
          (findNeighbors g current) gc rest
          ⟨hrows, hcolseq, hlen, hactive, hframe, hsound, fun i hi => hA i (by simp [hi])⟩
          hdone2
          (fun m hm => hm)
          (fun j hj => Or.inl hj)
      have hstep : openNeighborsStep gc (current :: rest) = Sum.inr (gc1, wl1) := by
        show processNeighbors gc rest (findNeighbors gc current) = Sum.inr (gc1, wl1)
        rw [findNeighbors_congr gc g hrows hcolseq current]
        exact hp
      have hdone3 : FloodDone g s gc1 wl1 [] := by
        intro i h1 h2 h3 h4 h5
        by_cases hic : i = current
        · subst hic; exact fun j hj => hopen1 j hj
        · exact hdone1 i h1 h2 h3 h4 (by simp [hic])
      have hrun : openNeighborsLoop (fuel + 1) gc (current :: rest) =
          openNeighborsLoop fuel gc1 wl1 := by
        simp only [openNeighborsLoop, hstep]
      have hmeas2 : closedCount gc1 g.cells.length + wl1.length < fuel := by
        simp only [List.length_cons] at hmeas
        omega
      obtain ⟨g1, hloop, hinvf, hdonef, hmonof⟩ := ih gc1 wl1 hinv1 hdone3 hmeas2
      exact ⟨g1, by rw [hrun]; exact hloop, hinvf, hdonef,
        fun j hj => hmonof j (hmono1 j hj)⟩

/-- C6 (amended): opening a closed, unlabeled, zero-count, non-mine seed
cell in an Active game whose flood region (`ReachOpen`: the seed's connected
zero-count region plus its nonzero-count border) is closed and unlabeled,
where no mine neighbors any zero-count cell, and where the seed's open does
not complete the win count (`openedCount + 1 < totalCells - mines`, the
proviso the counterexample forces), opens exactly the region plus its
border — a cell is opened afterwards iff it was opened before or lies in
the region — and opens no mine cell; every cell's mine flag, stored count
and label are unchanged and the game stays Active. -/
theorem c6_flood_opens_region (fuel : Nat) (g : Game) (s : Nat)
    (hshape : g.cells.length = g.rows * g.columns)
    (hcols : 0 < g.columns)
    (hactive : g.state = MGS_Active)
    (hslt : s < g.cells.length)
    (hseedclosed : (cellAt g s).isOpened = false)
    (hseedlabel : (cellAt g s).label = MCL_None)
    (hseedbomb : (cellAt g s).isBomb = false)
    (hseedzero : (cellAt g s).numberOfNeighborBombs = 0)
    (hfresh : ∀ j, ReachOpen g s j →
      (cellAt g j).isOpened = false ∧ (cellAt g j).label = MCL_None)
    (hzero : ∀ i, i < g.cells.length → (cellAt g i).numberOfNeighborBombs = 0 →
      ∀ j ∈ findNeighbors g i, (cellAt g j).isBomb = false)
    (hwin : g.numberOfOpenedCells + 1 < g.cells.length - g.bombs)
    (hfuel : g.cells.length + 2 ≤ fuel) :
    ∃ g1, OnOpen fuel g s = some (g1, none) ∧
      g1.state = MGS_Active ∧
      g1.cells.length = g.cells.length ∧
      (∀ j, (cellAt g1 j).isOpened = true ↔
        ((cellAt g j).isOpened = true ∨ ReachOpen g s j)) ∧
      (∀ j, ReachOpen g s j → (cellAt g j).isBomb = false) ∧
      (∀ j, (cellAt g1 j).isBomb = (cellAt g j).isBomb ∧
            (cellAt g1 j).numberOfNeighborBombs = (cellAt g j).numberOfNeighborBombs ∧
            (cellAt g1 j).label = (cellAt g j).label) := by
  have hnobomb : ∀ j, ReachOpen g s j → (cellAt g j).isBomb = false :=
    reachOpen_not_bomb g s hshape hcols hslt hseedbomb hzero
  obtain ⟨g2, hoc, hst, hr, hc, hb, ho, hle, hcells⟩ :=
    openCell_safe g s hactive hslt hseedclosed hseedlabel hseedbomb
  have hsafe : g2.cells.length - g2.bombs = g.cells.length - g.bombs := by rw [hle, hb]
  have hsuc : hasSuccess g2 = ((g2, none), false) := by
    unfold hasSuccess
    rw [if_neg (by rw [hst, hactive]; simp)]
    rw [if_neg (by rw [ho, hsafe]; omega), if_neg (by rw [ho, hsafe]; omega)]
  have hseedcount2 : (cellAt g2 s).numberOfNeighborBombs = 0 := by
    rw [hcells s, if_pos rfl]
    exact hseedzero
  have hopeng2s : (cellAt g2 s).isOpened = true := by
    rw [hcells s, if_pos rfl]
  have hrun : OnOpen fuel g s = openNeighborsLoop fuel g2 [s] := by
    unfold OnOpen
    simp [hactive, Nat.not_le.mpr hslt, hseedclosed, hoc, hsuc, hseedcount2, openNeighbors]
  have hframe2 : ∀ j, (cellAt g2 j).isBomb = (cellAt g j).isBomb ∧
      (cellAt g2 j).numberOfNeighborBombs = (cellAt g j).numberOfNeighborBombs ∧
      (cellAt g2 j).label = (cellAt g j).label := by
    intro j
    rw [hcells j]
    by_cases hjs : j = s
    · rw [if_pos hjs]
      exact ⟨rfl, rfl, rfl⟩
    · rw [if_neg hjs]
      exact ⟨rfl, rfl, rfl⟩
  have hinv2 : FloodInv g s g2 [s] := by
    refine ⟨hr, hc, hle, by rw [hst]; exact hactive, hframe2, ?_, ?_⟩
    · intro j hj
      by_cases hjs : j = s
      · exact Or.inr (hjs ▸ ReachOpen.seed)
      · rw [hcells j, if_neg hjs] at hj
        exact Or.inl hj
    · intro i hi
      rcases List.mem_cons.mp hi with h | h
      · subst h
        exact ⟨ReachOpen.seed, hseedzero, hopeng2s, hslt⟩
      · exact absurd h (List.not_mem_nil i)
  have hdone2 : FloodDone g s g2 [s] [] := by
    intro i h1 h2 h3 h4 h5
    exfalso
    have his : i ≠ s := fun h => h4 (by simp [h])
    rw [hcells i, if_neg his] at h3
    have := (hfresh i h1).1
    rw [this] at h3
    exact Bool.false_ne_true h3
  have hmeas2 : closedCount g2 g.cells.length + ([s] : List Nat).length < fuel := by
    have := closedCount_le g2 g.cells.length
    simp only [List.length_singleton]
    omega
  obtain ⟨g1, hloop, hinvf, hdonef, hmonof⟩ :=
    openNeighborsLoop_flood g s hshape hcols hslt hfresh hnobomb fuel g2 [s]
      hinv2 hdone2 hmeas2
  obtain ⟨frows, fcols, flen, fstate, fframe, fsound, fA⟩ := hinvf
  have hcomp : ∀ j, ReachOpen g s j → (cellAt g1 j).isOpened = true := by
    intro j h
    induction h with
    | seed => exact hmonof s hopeng2s
    | step hreach h0 hmem ih =>
      exact hdonef _ hreach h0 ih (List.not_mem_nil _) (List.not_mem_nil _) _ hmem
  refine ⟨g1, by rw [hrun]; exact hloop, fstate, flen, ?_, hnobomb, fframe⟩
  intro j
  constructor
  · exact fun h => fsound j h
  · rintro (h | h)
    · apply hmonof
      rw [hcells j]
      by_cases hjs : j = s
      · rw [if_pos hjs]
      · rw [if_neg hjs]
        exact h
    · exact hcomp j h

theorem c6_witness :
    (gW6.cells.length = gW6.rows * gW6.columns ∧ 0 < gW6.columns ∧
      gW6.state = MGS_Active ∧ 0 < gW6.cells.length ∧
      (cellAt gW6 0).isOpened = false ∧ (cellAt gW6 0).label = MCL_None ∧
      (cellAt gW6 0).isBomb = false ∧ (cellAt gW6 0).numberOfNeighborBombs = 0 ∧
      gW6.numberOfOpenedCells + 1 < gW6.cells.length - gW6.bombs ∧
      gW6.cells.length + 2 ≤ 6) ∧
    (∃ g1, OnOpen 6 gW6 0 = some (g1, none) ∧
      g1.state = MGS_Active ∧
      g1.cells.length = gW6.cells.length ∧
      (∀ j, (cellAt g1 j).isOpened = true ↔
        ((cellAt gW6 j).isOpened = true ∨ ReachOpen gW6 0 j)) ∧
      (∀ j, ReachOpen gW6 0 j → (cellAt gW6 j).isBomb = false) ∧
      (∀ j, (cellAt g1 j).isBomb = (cellAt gW6 j).isBomb ∧
            (cellAt g1 j).numberOfNeighborBombs = (cellAt gW6 j).numberOfNeighborBombs ∧
            (cellAt g1 j).label = (cellAt gW6 j).label)) := by
  have hsub : ∀ j, ReachOpen gW6 0 j → j ∈ [0, 1, 2, 3] :=
    reachOpen_subset gW6 0 [0, 1, 2, 3] (by decide) (by decide)
  have hfresh : ∀ j, ReachOpen gW6 0 j →
      (cellAt gW6 j).isOpened = false ∧ (cellAt gW6 j).label = MCL_None := by
    intro j hj
    have hall : ∀ m ∈ [0, 1, 2, 3],
        (cellAt gW6 m).isOpened = false ∧ (cellAt gW6 m).label = MCL_None := by decide
    exact hall j (hsub j hj)
  refine ⟨⟨by decide, by decide, rfl, by decide, by decide, by decide, by decide, by decide,
    by decide, by decide⟩, ?_⟩
  exact c6_flood_opens_region 6 gW6 0 (by decide) (by decide) rfl (by decide) (by decide)
    (by decide) (by decide) (by decide) hfresh (by decide) (by decide) (by decide)

end Minesweeper
